import Mathlib

/-!
Verification of the enkido audio-VM reference algorithms against their
natural-language specification.  Definitions are shallow embeddings of the
Python reference code under src/experiments, using exact rational or real
arithmetic in place of IEEE floats.
-/

namespace Cedar

/-! ## Euclid running-bucket pattern generator

Embeds the reference-pattern loop of test_sequencers.py
(test_euclid_timing_precision): bucket starts at 0; per step
bucket += hits/steps; when bucket >= 1 a hit is emitted at that step and
bucket -= 1.  The generated list has one Bool per step, index i of the list
corresponding to bit i of the pattern_mask built by the Python loop. -/
def euclidGo (inc : ℚ) : ℚ → ℕ → List Bool
  | _, 0 => []
  | bucket, n + 1 =>
    if 1 ≤ bucket + inc then true :: euclidGo inc (bucket + inc - 1) n
    else false :: euclidGo inc (bucket + inc) n

/-- The Euclid pattern for a given number of hits and steps, with no
rotation applied, as computed by the running-bucket loop of
test_sequencers.py. -/
def euclidPattern (hits steps : ℕ) : List Bool :=
  euclidGo ((hits : ℚ) / (steps : ℚ)) 0 steps

/-- The canonical tresillo bit pattern 10010010 (hits at steps 0, 3 and 6),
as listed in the expected-pattern table of test_euclid_patterns. -/
def tresillo : List Bool :=
  [true, false, false, true, false, false, true, false]

/-- Hit count of a running-bucket run: with the bucket kept in [0, 1), the
number of emitted hits over n steps is the floor of the total accumulated
increment. -/
lemma euclidGo_count (inc : ℚ) (hi0 : 0 ≤ inc) (hi1 : inc ≤ 1) :
    ∀ (n : ℕ) (bucket : ℚ), 0 ≤ bucket → bucket < 1 →
      ((euclidGo inc bucket n).count true : ℤ) = ⌊bucket + n * inc⌋ := by
  intro n
  induction n with
  | zero =>
    intro bucket h0 h1
    simp only [euclidGo, List.count_nil, Nat.cast_zero, CharP.cast_eq_zero,
      zero_mul, add_zero]
    exact (Int.floor_eq_zero_iff.mpr ⟨h0, h1⟩).symm
  | succ n ih =>
    intro bucket h0 h1
    by_cases hb : 1 ≤ bucket + inc
    · have h0' : 0 ≤ bucket + inc - 1 := by linarith
      have h1' : bucket + inc - 1 < 1 := by linarith
      calc ((euclidGo inc bucket (n + 1)).count true : ℤ)
          = ((euclidGo inc (bucket + inc - 1) n).count true : ℤ) + 1 := by
            simp [euclidGo, if_pos hb, List.count_cons]
        _ = ⌊bucket + inc - 1 + n * inc⌋ + 1 := by rw [ih _ h0' h1']
        _ = ⌊bucket + inc + n * inc - 1⌋ + 1 := by ring_nf
        _ = ⌊bucket + inc + n * inc⌋ := by rw [Int.floor_sub_one]; ring
        _ = ⌊bucket + (n + 1 : ℕ) * inc⌋ := by push_cast; ring_nf
    · push_neg at hb
      have h0' : 0 ≤ bucket + inc := add_nonneg h0 hi0
      calc ((euclidGo inc bucket (n + 1)).count true : ℤ)
          = ((euclidGo inc (bucket + inc) n).count true : ℤ) := by
            simp [euclidGo, if_neg (not_le.mpr hb), List.count_cons]
        _ = ⌊bucket + inc + n * inc⌋ := ih _ h0' hb
        _ = ⌊bucket + (n + 1 : ℕ) * inc⌋ := by push_cast; ring_nf

/-- C1 counterexample: the running-bucket algorithm for hits = 3 and
steps = 8 with no rotation does not produce the canonical tresillo
10010010; it places no hit at step 0. -/
theorem euclid_3_8_ne_tresillo : euclidPattern 3 8 ≠ tresillo := by
  norm_num [euclidPattern, euclidGo, tresillo]

/-- C1 (amended): the running-bucket algorithm for hits = 3 and steps = 8
with no rotation produces the pattern 00100101 (hits exactly at steps 2, 5
and 7), which is the canonical tresillo 10010010 rotated cyclically by one
step. -/
theorem euclid_3_8_rotated_tresillo :
    euclidPattern 3 8 =
        [false, false, true, false, false, true, false, true] ∧
      euclidPattern 3 8 = tresillo.rotate 1 := by
  constructor <;> norm_num [euclidPattern, euclidGo, tresillo, List.rotate]

/-! ## IEEE-double semantics of the running-bucket loop

The Python reference loop of test_sequencers.py runs in IEEE binary64
arithmetic, not exact rationals.  roundF models rounding a rational to 53
significant bits, round to nearest with ties to even, for values in the
normal range (no overflow or subnormal handling; every value exercised
here is mid-range); addF, subF and divF are the correctly-rounded
binary64 operations used by the loop. -/
def rnInt (x : ℚ) : ℤ :=
  if x - ⌊x⌋ < 1 / 2 then ⌊x⌋
  else if 1 / 2 < x - ⌊x⌋ then ⌊x⌋ + 1
  else if ⌊x⌋ % 2 = 0 then ⌊x⌋ else ⌊x⌋ + 1

/-- Round a rational to the nearest binary64 value (53-bit significand,
ties to even), for normal-range inputs. -/
def roundF (q : ℚ) : ℚ :=
  if q = 0 then 0
  else if q < 0 then
    -((rnInt (-q * 2 ^ (52 - Int.log 2 (-q))) : ℚ) *
      2 ^ (Int.log 2 (-q) - 52))
  else (rnInt (q * 2 ^ (52 - Int.log 2 q)) : ℚ) * 2 ^ (Int.log 2 q - 52)

def addF (a b : ℚ) : ℚ := roundF (a + b)

def subF (a b : ℚ) : ℚ := roundF (a - b)

def divF (a b : ℚ) : ℚ := roundF (a / b)

/-- The running-bucket loop of test_sequencers.py under IEEE binary64
semantics: increment and bucket updates are correctly-rounded double
operations. -/
def euclidGoF (inc : ℚ) : ℚ → ℕ → List Bool
  | _, 0 => []
  | bucket, n + 1 =>
    if 1 ≤ addF bucket inc then
      true :: euclidGoF inc (subF (addF bucket inc) 1) n
    else false :: euclidGoF inc (addF bucket inc) n

/-- The Euclid pattern as the Python float loop computes it: the increment
is the rounded double quotient hits / steps. -/
def euclidPatternF (hits steps : ℕ) : List Bool :=
  euclidGoF (divF (hits : ℚ) (steps : ℚ)) 0 steps

lemma euclidGoF_zero (inc bucket : ℚ) : euclidGoF inc bucket 0 = [] := rfl

lemma euclidGoF_succ (inc bucket : ℚ) (n : ℕ) :
    euclidGoF inc bucket (n + 1) =
      if 1 ≤ addF bucket inc then
        true :: euclidGoF inc (subF (addF bucket inc) 1) n
      else false :: euclidGoF inc (addF bucket inc) n := rfl

/-- Characterization of the binade exponent used by roundF. -/
lemma Int_log_eq (q : ℚ) (e : ℤ) (hq : 0 < q)
    (hlo : (2 : ℚ) ^ e ≤ q) (hhi : q < (2 : ℚ) ^ (e + 1)) :
    Int.log 2 q = e := by
  have h1 : e ≤ Int.log 2 q := by
    rw [← Int.zpow_le_iff_le_log (by norm_num) hq]
    exact_mod_cast hlo
  have h2 : Int.log 2 q < e + 1 := by
    rw [← Int.lt_zpow_iff_log_lt (by norm_num) hq]
    exact_mod_cast hhi
  omega

lemma rnInt_eq_floor (x : ℚ) (n : ℤ) (h0 : (n : ℚ) ≤ x)
    (h1 : x < (n : ℚ) + 1 / 2) : rnInt x = n := by
  have hf : ⌊x⌋ = n := Int.floor_eq_iff.mpr ⟨h0, by linarith⟩
  unfold rnInt
  rw [hf, if_pos (by linarith)]

lemma rnInt_eq_ceil (x : ℚ) (n : ℤ) (h0 : (n : ℚ) + 1 / 2 < x)
    (h1 : x < (n : ℚ) + 1) : rnInt x = n + 1 := by
  have hf : ⌊x⌋ = n := Int.floor_eq_iff.mpr ⟨by linarith, by linarith⟩
  unfold rnInt
  rw [hf, if_neg (by linarith), if_pos (by linarith)]

lemma rnInt_eq_tie_even (x : ℚ) (n : ℤ) (hx : x = (n : ℚ) + 1 / 2)
    (he : n % 2 = 0) : rnInt x = n := by
  have hf : ⌊x⌋ = n := Int.floor_eq_iff.mpr ⟨by linarith, by linarith⟩
  unfold rnInt
  rw [hf, if_neg (by linarith), if_neg (by linarith), if_pos he]

lemma rnInt_eq_tie_odd (x : ℚ) (n : ℤ) (hx : x = (n : ℚ) + 1 / 2)
    (ho : ¬ n % 2 = 0) : rnInt x = n + 1 := by
  have hf : ⌊x⌋ = n := Int.floor_eq_iff.mpr ⟨by linarith, by linarith⟩
  unfold rnInt
  rw [hf, if_neg (by linarith), if_neg (by linarith), if_neg ho]

/-- Evaluate roundF at a positive rational from its binade exponent e and
the rounded scaled significand. -/
lemma roundF_eval (q x v : ℚ) (e m : ℤ) (hq : 0 < q)
    (hlo : (2 : ℚ) ^ e ≤ q) (hhi : q < (2 : ℚ) ^ (e + 1))
    (hx : q * 2 ^ (52 - e) = x) (hm : rnInt x = m)
    (hv : (m : ℚ) * 2 ^ (e - 52) = v) :
    roundF q = v := by
  unfold roundF
  rw [if_neg hq.ne', if_neg (not_lt.mpr hq.le), Int_log_eq q e hq hlo hhi,
    hx, hm, hv]

/-- C2: for all naturals hits <= steps with steps >= 1, the running-bucket
Euclid algorithm, computed in exact rational arithmetic, emits exactly
hits hits across the steps steps: the number of true entries (the popcount
of the pattern mask) equals hits.  This is the amended claim: the IEEE
binary64 loop of the source can emit fewer hits; see the counterexample
below at hits = 1, steps = 10. -/
theorem euclid_count_hits (hits steps : ℕ) (h : hits ≤ steps)
    (hs : 1 ≤ steps) : (euclidPattern hits steps).count true = hits := by
  have hs0 : (0 : ℚ) < (steps : ℚ) := by exact_mod_cast hs
  have hi0 : 0 ≤ (hits : ℚ) / (steps : ℚ) :=
    div_nonneg (by positivity) hs0.le
  have hi1 : (hits : ℚ) / (steps : ℚ) ≤ 1 :=
    (div_le_one hs0).mpr (by exact_mod_cast h)
  have key := euclidGo_count ((hits : ℚ) / (steps : ℚ)) hi0 hi1 steps 0
    le_rfl one_pos
  rw [show (0 : ℚ) + (steps : ℚ) * ((hits : ℚ) / (steps : ℚ)) = (hits : ℚ) by
    field_simp] at key
  rw [Int.floor_natCast] at key
  unfold euclidPattern
  exact_mod_cast key

/-- C2 witness at hits = 3, steps = 8. -/
theorem euclid_count_hits_witness :
    (3 : ℕ) ≤ 8 ∧ 1 ≤ 8 ∧ (euclidPattern 3 8).count true = 3 :=
  ⟨by norm_num, by norm_num,
    euclid_count_hits 3 8 (by norm_num) (by norm_num)⟩

/-- C2 counterexample: under the IEEE binary64 semantics of the source
loop, hits = 1, steps = 10 emits zero hits, not one: the rounded double
increment 0.1 accumulated ten times reaches only
0.9999999999999999 < 1, so the popcount is 0, falsifying the universal
popcount claim for the float program.  Each intermediate sum below is the
exact binary64 value, matching the Python run step for step. -/
theorem euclidF_1_10_no_hits :
    (euclidPatternF 1 10).count true = 0 ∧
      (euclidPatternF 1 10).count true ≠ 1 := by
  have hinc : divF (1 : ℚ) (10 : ℚ) =
      3602879701896397 / 36028797018963968 := by
    unfold divF
    exact roundF_eval (1 / 10) (36028797018963968 / 5) _ (-4)
      7205759403792794 (by norm_num) (by norm_num) (by norm_num)
      (by norm_num)
      (by have h := rnInt_eq_ceil (36028797018963968 / 5 : ℚ)
            7205759403792793 (by norm_num) (by norm_num)
          omega)
      (by norm_num)
  have e1 : addF 0 (3602879701896397 / 36028797018963968) =
      3602879701896397 / 36028797018963968 := by
    unfold addF
    rw [zero_add]
    exact roundF_eval _ 7205759403792794 _ (-4) 7205759403792794
      (by norm_num) (by norm_num) (by norm_num) (by norm_num)
      (rnInt_eq_floor _ 7205759403792794 (by norm_num) (by norm_num))
      (by norm_num)
  have e2 : addF (3602879701896397 / 36028797018963968)
      (3602879701896397 / 36028797018963968) =
      3602879701896397 / 18014398509481984 := by
    unfold addF
    rw [show (3602879701896397 / 36028797018963968 +
        3602879701896397 / 36028797018963968 : ℚ) =
        3602879701896397 / 18014398509481984 by norm_num]
    exact roundF_eval _ 7205759403792794 _ (-3) 7205759403792794
      (by norm_num) (by norm_num) (by norm_num) (by norm_num)
      (rnInt_eq_floor _ 7205759403792794 (by norm_num) (by norm_num))
      (by norm_num)
  have e3 : addF (3602879701896397 / 18014398509481984)
      (3602879701896397 / 36028797018963968) =
      1351079888211149 / 4503599627370496 := by
    unfold addF
    rw [show (3602879701896397 / 18014398509481984 +
        3602879701896397 / 36028797018963968 : ℚ) =
        10808639105689191 / 36028797018963968 by norm_num]
    exact roundF_eval _ (10808639105689191 / 2) _ (-2) 5404319552844596
      (by norm_num) (by norm_num) (by norm_num) (by norm_num)
      (by have h := rnInt_eq_tie_odd (10808639105689191 / 2 : ℚ)
            5404319552844595 (by norm_num) (by decide)
          omega)
      (by norm_num)
  have e4 : addF (1351079888211149 / 4503599627370496)
      (3602879701896397 / 36028797018963968) =
      3602879701896397 / 9007199254740992 := by
    unfold addF
    rw [show (1351079888211149 / 4503599627370496 +
        3602879701896397 / 36028797018963968 : ℚ) =
        14411518807585589 / 36028797018963968 by norm_num]
    exact roundF_eval _ (14411518807585589 / 2) _ (-2) 7205759403792794
      (by norm_num) (by norm_num) (by norm_num) (by norm_num)
      (rnInt_eq_tie_even _ 7205759403792794 (by norm_num) (by decide))
      (by norm_num)
  have e5 : addF (3602879701896397 / 9007199254740992)
      (3602879701896397 / 36028797018963968) = 1 / 2 := by
    unfold addF
    rw [show (3602879701896397 / 9007199254740992 +
        3602879701896397 / 36028797018963968 : ℚ) =
        18014398509481985 / 36028797018963968 by norm_num]
    exact roundF_eval _ (18014398509481985 / 4) _ (-1) 4503599627370496
      (by norm_num) (by norm_num) (by norm_num) (by norm_num)
      (rnInt_eq_floor _ 4503599627370496 (by norm_num) (by norm_num))
      (by norm_num)
  have e6 : addF (1 / 2) (3602879701896397 / 36028797018963968) =
      5404319552844595 / 9007199254740992 := by
    unfold addF
    rw [show (1 / 2 + 3602879701896397 / 36028797018963968 : ℚ) =
        21617278211378381 / 36028797018963968 by norm_num]
    exact roundF_eval _ (21617278211378381 / 4) _ (-1) 5404319552844595
      (by norm_num) (by norm_num) (by norm_num) (by norm_num)
      (rnInt_eq_floor _ 5404319552844595 (by norm_num) (by norm_num))
      (by norm_num)
  have e7 : addF (5404319552844595 / 9007199254740992)
      (3602879701896397 / 36028797018963968) =
      3152519739159347 / 4503599627370496 := by
    unfold addF
    rw [show (5404319552844595 / 9007199254740992 +
        3602879701896397 / 36028797018963968 : ℚ) =
        25220157913274777 / 36028797018963968 by norm_num]
    exact roundF_eval _ (25220157913274777 / 4) _ (-1) 6305039478318694
      (by norm_num) (by norm_num) (by norm_num) (by norm_num)
      (rnInt_eq_floor _ 6305039478318694 (by norm_num) (by norm_num))
      (by norm_num)
  have e8 : addF (3152519739159347 / 4503599627370496)
      (3602879701896397 / 36028797018963968) =
      7205759403792793 / 9007199254740992 := by
    unfold addF
    rw [show (3152519739159347 / 4503599627370496 +
        3602879701896397 / 36028797018963968 : ℚ) =
        28823037615171173 / 36028797018963968 by norm_num]
    exact roundF_eval _ (28823037615171173 / 4) _ (-1) 7205759403792793
      (by norm_num) (by norm_num) (by norm_num) (by norm_num)
      (rnInt_eq_floor _ 7205759403792793 (by norm_num) (by norm_num))
      (by norm_num)
  have e9 : addF (7205759403792793 / 9007199254740992)
      (3602879701896397 / 36028797018963968) =
      2026619832316723 / 2251799813685248 := by
    unfold addF
    rw [show (7205759403792793 / 9007199254740992 +
        3602879701896397 / 36028797018963968 : ℚ) =
        32425917317067569 / 36028797018963968 by norm_num]
    exact roundF_eval _ (32425917317067569 / 4) _ (-1) 8106479329266892
      (by norm_num) (by norm_num) (by norm_num) (by norm_num)
      (rnInt_eq_floor _ 8106479329266892 (by norm_num) (by norm_num))
      (by norm_num)
  have e10 : addF (2026619832316723 / 2251799813685248)
      (3602879701896397 / 36028797018963968) =
      9007199254740991 / 9007199254740992 := by
    unfold addF
    rw [show (2026619832316723 / 2251799813685248 +
        3602879701896397 / 36028797018963968 : ℚ) =
        36028797018963965 / 36028797018963968 by norm_num]
    exact roundF_eval _ (36028797018963965 / 4) _ (-1) 9007199254740991
      (by norm_num) (by norm_num) (by norm_num) (by norm_num)
      (rnInt_eq_floor _ 9007199254740991 (by norm_num) (by norm_num))
      (by norm_num)
  have hpat : euclidPatternF 1 10 =
      [false, false, false, false, false, false, false, false, false,
        false] := by
    unfold euclidPatternF
    rw [Nat.cast_one, Nat.cast_ofNat, hinc]
    rw [show (10 : ℕ) = 9 + 1 from by norm_num, euclidGoF_succ, e1,
      if_neg (by norm_num :
        ¬ (1 : ℚ) ≤ 3602879701896397 / 36028797018963968)]
    rw [show (9 : ℕ) = 8 + 1 from by norm_num, euclidGoF_succ, e2,
      if_neg (by norm_num :
        ¬ (1 : ℚ) ≤ 3602879701896397 / 18014398509481984)]
    rw [show (8 : ℕ) = 7 + 1 from by norm_num, euclidGoF_succ, e3,
      if_neg (by norm_num :
        ¬ (1 : ℚ) ≤ 1351079888211149 / 4503599627370496)]
    rw [show (7 : ℕ) = 6 + 1 from by norm_num, euclidGoF_succ, e4,
      if_neg (by norm_num :
        ¬ (1 : ℚ) ≤ 3602879701896397 / 9007199254740992)]
    rw [show (6 : ℕ) = 5 + 1 from by norm_num, euclidGoF_succ, e5,
      if_neg (by norm_num : ¬ (1 : ℚ) ≤ 1 / 2)]
    rw [show (5 : ℕ) = 4 + 1 from by norm_num, euclidGoF_succ, e6,
      if_neg (by norm_num :
        ¬ (1 : ℚ) ≤ 5404319552844595 / 9007199254740992)]
    rw [show (4 : ℕ) = 3 + 1 from by norm_num, euclidGoF_succ, e7,
      if_neg (by norm_num :
        ¬ (1 : ℚ) ≤ 3152519739159347 / 4503599627370496)]
    rw [show (3 : ℕ) = 2 + 1 from by norm_num, euclidGoF_succ, e8,
      if_neg (by norm_num :
        ¬ (1 : ℚ) ≤ 7205759403792793 / 9007199254740992)]
    rw [show (2 : ℕ) = 1 + 1 from by norm_num, euclidGoF_succ, e9,
      if_neg (by norm_num :
        ¬ (1 : ℚ) ≤ 2026619832316723 / 2251799813685248)]
    rw [show (1 : ℕ) = 0 + 1 from by norm_num, euclidGoF_succ, e10,
      if_neg (by norm_num :
        ¬ (1 : ℚ) ≤ 9007199254740991 / 9007199254740992)]
    rw [euclidGoF_zero]
  rw [hpat]
  constructor <;> norm_num

/-! ## PolyBLEP band-limited step correction

Embeds the poly BLEP reference function shared by
test_polyblep_symmetry.py and test_sqr_corrections.py: the absolute value
of dt is taken, values of dt below 1e-8 disable the correction, a phase
just after the discontinuity (t < dt) gets the rising polynomial
2u - u^2 - 1 with u = t/dt, a phase just before the discontinuity
(t > 1 - dt) gets u^2 + 2u + 1 with u = (t-1)/dt, and all other phases get
zero. -/
def poly_blep (t dt : ℚ) : ℚ :=
  if |dt| < 1 / 10 ^ 8 then 0
  else if t < |dt| then
    t / |dt| + t / |dt| - t / |dt| * (t / |dt|) - 1
  else if 1 - |dt| < t then
    (t - 1) / |dt| * ((t - 1) / |dt|) + (t - 1) / |dt| + (t - 1) / |dt| + 1
  else 0

/-- C3: the PolyBLEP correction is antisymmetric about the discontinuity:
for dt between 1e-8 and 1/2 and any phase t in [0, 1],
poly_blep t dt = -poly_blep (1 - t) dt, so a rising and a falling edge pair
contribute zero net bias. -/
theorem poly_blep_antisymm (t dt : ℚ) (hd1 : 1 / 10 ^ 8 ≤ dt)
    (hd2 : dt ≤ 1 / 2) (ht0 : 0 ≤ t) (ht1 : t ≤ 1) :
    poly_blep t dt = -poly_blep (1 - t) dt := by
  have hd0 : 0 < dt := lt_of_lt_of_le (by norm_num) hd1
  have hne : dt ≠ 0 := ne_of_gt hd0
  have habs : |dt| = dt := abs_of_pos hd0
  have hguard : ¬ (dt < 1 / 10 ^ 8) := not_lt.mpr hd1
  simp only [poly_blep, habs]
  rw [if_neg hguard, if_neg hguard]
  by_cases h1 : t < dt
  · have h2 : ¬ (1 - t < dt) := by push_neg; linarith
    have h3 : 1 - dt < 1 - t := by linarith
    rw [if_pos h1, if_neg h2, if_pos h3]
    field_simp
    ring
  · by_cases h4 : 1 - dt < t
    · have h5 : 1 - t < dt := by linarith
      rw [if_neg h1, if_pos h4, if_pos h5]
      field_simp
      ring
    · have h6 : ¬ (1 - t < dt) := by push_neg at h1 ⊢; linarith
      have h7 : ¬ (1 - dt < 1 - t) := by push_neg at h1 ⊢; linarith
      rw [if_neg h1, if_neg h4, if_neg h6, if_neg h7]
      ring

/-- C3 witness at t = 0, dt = 1/100. -/
theorem poly_blep_antisymm_witness :
    1 / 10 ^ 8 ≤ (1 / 100 : ℚ) ∧ (1 / 100 : ℚ) ≤ 1 / 2 ∧ (0 : ℚ) ≤ 0 ∧
      (0 : ℚ) ≤ 1 ∧ poly_blep 0 (1 / 100) = -poly_blep (1 - 0) (1 / 100) :=
  ⟨by norm_num, by norm_num, le_rfl, by norm_num,
    poly_blep_antisymm 0 (1 / 100) (by norm_num) (by norm_num) le_rfl
      (by norm_num)⟩

/-- C4: for dt between 1e-8 and 1/2, the PolyBLEP correction vanishes
outside the window of width dt on each side of the discontinuity, and on
the whole phase interval [0, 1] its absolute value is at most 1. -/
theorem poly_blep_window_bound (t dt : ℚ) (hd1 : 1 / 10 ^ 8 ≤ dt)
    (hd2 : dt ≤ 1 / 2) :
    (dt ≤ t → t ≤ 1 - dt → poly_blep t dt = 0) ∧
      (0 ≤ t → t ≤ 1 → |poly_blep t dt| ≤ 1) := by
  have hd0 : 0 < dt := lt_of_lt_of_le (by norm_num) hd1
  have habs : |dt| = dt := abs_of_pos hd0
  have hguard : ¬ (dt < 1 / 10 ^ 8) := not_lt.mpr hd1
  constructor
  · intro h1 h2
    simp only [poly_blep, habs]
    rw [if_neg hguard, if_neg (not_lt.mpr h1),
      if_neg (by push_neg; linarith : ¬ (1 - dt < t))]
  · intro h0 h1
    simp only [poly_blep, habs]
    rw [if_neg hguard]
    by_cases hb1 : t < dt
    · rw [if_pos hb1]
      have hu0 : 0 ≤ t / dt := div_nonneg h0 hd0.le
      have hu1 : t / dt < 1 := (div_lt_one hd0).mpr hb1
      rw [abs_le]
      constructor <;> nlinarith [sq_nonneg (t / dt - 1)]
    · by_cases hb2 : 1 - dt < t
      · rw [if_neg hb1, if_pos hb2]
        have hu0 : (t - 1) / dt ≤ 0 :=
          div_nonpos_of_nonpos_of_nonneg (by linarith) hd0.le
        have hu1 : -1 < (t - 1) / dt := by
          rw [lt_div_iff hd0]
          linarith
        rw [abs_le]
        constructor <;> nlinarith [sq_nonneg ((t - 1) / dt + 1)]
      · rw [if_neg hb1, if_neg hb2]
        simp

/-- C4 witness at t = 1/2, dt = 1/100. -/
theorem poly_blep_window_bound_witness :
    1 / 10 ^ 8 ≤ (1 / 100 : ℚ) ∧ (1 / 100 : ℚ) ≤ 1 / 2 ∧
      poly_blep (1 / 2) (1 / 100) = 0 ∧
      |poly_blep (1 / 2) (1 / 100)| ≤ 1 :=
  ⟨by norm_num, by norm_num,
    (poly_blep_window_bound (1 / 2) (1 / 100) (by norm_num) (by norm_num)).1
      (by norm_num) (by norm_num),
    (poly_blep_window_bound (1 / 2) (1 / 100) (by norm_num) (by norm_num)).2
      (by norm_num) (by norm_num)⟩

/-! ## Compressor static transfer curve

Embeds the expected-output loop of test_compressor_ratio in
test_dynamics.py: below the threshold the expected output level equals the
input level; above it the expected output is
threshold + (input - threshold) / ratio, all in dB. -/
noncomputable def compressorExpectedDb (threshold r in_db : ℝ) : ℝ :=
  if in_db ≤ threshold then in_db else threshold + (in_db - threshold) / r

/-- The transfer curve rewritten with min and max, used for monotonicity
and continuity. -/
lemma compressorExpectedDb_eq (c r x : ℝ) :
    compressorExpectedDb c r x = min x c + max (x - c) 0 / r := by
  unfold compressorExpectedDb
  rcases le_or_lt x c with h | h
  · rw [if_pos h, min_eq_left h, max_eq_right (by linarith), zero_div,
      add_zero]
  · rw [if_neg (not_le.mpr h), min_eq_right h.le, max_eq_left (by linarith)]

/-- C5: the compressor expected-output curve maps levels at or below the
threshold to themselves and levels above it to
threshold + (input - threshold) / ratio, and for every ratio at least 1 it
is monotone and continuous at the threshold. -/
theorem compressor_transfer_curve (c r : ℝ) (hr : 1 ≤ r) :
    (∀ x, x ≤ c → compressorExpectedDb c r x = x) ∧
      (∀ x, c < x → compressorExpectedDb c r x = c + (x - c) / r) ∧
      Monotone (compressorExpectedDb c r) ∧
      ContinuousAt (compressorExpectedDb c r) c := by
  have hr0 : (0 : ℝ) < r := lt_of_lt_of_le one_pos hr
  have hfun : compressorExpectedDb c r = fun x => min x c + max (x - c) 0 / r :=
    funext fun x => compressorExpectedDb_eq c r x
  refine ⟨fun x hx => if_pos hx, fun x hx => if_neg (not_le.mpr hx), ?_, ?_⟩
  · intro a b hab
    rw [compressorExpectedDb_eq, compressorExpectedDb_eq]
    exact add_le_add (min_le_min hab le_rfl)
      ((div_le_div_right hr0).mpr (max_le_max (by linarith) le_rfl))
  · rw [hfun]
    exact ((continuous_id.min continuous_const).add
      (((continuous_id.sub continuous_const).max continuous_const).div_const
        r)).continuousAt

/-- C5 witness at threshold -20 dB, ratio 4, inputs -30 dB and -10 dB. -/
theorem compressor_transfer_curve_witness :
    (1 : ℝ) ≤ 4 ∧ compressorExpectedDb (-20) 4 (-30) = -30 ∧
      compressorExpectedDb (-20) 4 (-10) = -20 + (-10 - -20) / 4 ∧
      Monotone (compressorExpectedDb (-20) 4) ∧
      ContinuousAt (compressorExpectedDb (-20) 4) (-20) :=
  ⟨by norm_num,
    (compressor_transfer_curve (-20) 4 (by norm_num)).1 (-30) (by norm_num),
    (compressor_transfer_curve (-20) 4 (by norm_num)).2.1 (-10) (by norm_num),
    (compressor_transfer_curve (-20) 4 (by norm_num)).2.2.1,
    (compressor_transfer_curve (-20) 4 (by norm_num)).2.2.2⟩

/-! ## Decibel and MIDI conversion helpers

Embeds db_to_linear, linear_to_db, freq_to_midi and midi_to_freq of
src/experiments/utils.py. -/
noncomputable def db_to_linear (db : ℝ) : ℝ := (10 : ℝ) ^ (db / 20)

/-- linear_to_db clamps its argument to a floor of 1e-10 before taking the
base-10 logarithm. -/
noncomputable def linear_to_db (x : ℝ) : ℝ :=
  20 * Real.logb 10 (max x (1 / 10 ^ 10))

noncomputable def freq_to_midi (f : ℝ) : ℝ := 69 + 12 * Real.logb 2 (f / 440)

noncomputable def midi_to_freq (m : ℝ) : ℝ := 440 * (2 : ℝ) ^ ((m - 69) / 12)

/-- C9: for every db value x at least -200 the round trip
linear_to_db (db_to_linear x) returns x exactly, because
db_to_linear x is at least the clamp floor 1e-10; for x below -200 the
round trip returns -200 instead. -/
theorem db_linear_round_trip (x : ℝ) :
    (-200 ≤ x → linear_to_db (db_to_linear x) = x) ∧
      (x < -200 → linear_to_db (db_to_linear x) = -200) := by
  have h10 : (1 : ℝ) < 10 := by norm_num
  have hfloor : (1 / 10 ^ 10 : ℝ) = (10 : ℝ) ^ ((-10 : ℝ)) := by
    rw [show ((-10 : ℝ)) = -((10 : ℕ) : ℝ) by norm_num,
      Real.rpow_neg (by norm_num), Real.rpow_natCast]
    norm_num
  constructor
  · intro hx
    have hle : (10 : ℝ) ^ ((-10 : ℝ)) ≤ (10 : ℝ) ^ (x / 20) :=
      (Real.rpow_le_rpow_left_iff h10).mpr (by linarith)
    unfold linear_to_db db_to_linear
    rw [hfloor, max_eq_left hle, Real.logb_rpow (by norm_num) (by norm_num)]
    ring
  · intro hx
    have hlt : (10 : ℝ) ^ (x / 20) < (10 : ℝ) ^ ((-10 : ℝ)) :=
      (Real.rpow_lt_rpow_left_iff h10).mpr (by linarith)
    unfold linear_to_db db_to_linear
    rw [hfloor, max_eq_right hlt.le,
      Real.logb_rpow (by norm_num) (by norm_num)]
    norm_num

/-- C9 witness at x = 0: a 0 dB level survives the round trip. -/
theorem db_linear_round_trip_witness :
    (-200 : ℝ) ≤ 0 ∧ linear_to_db (db_to_linear 0) = 0 :=
  ⟨by norm_num, (db_linear_round_trip 0).1 (by norm_num)⟩

/-- C10: freq_to_midi is a left inverse of midi_to_freq on all real note
numbers, the reference pitch midi_to_freq 69 = 440 holds exactly, and
midi_to_freq agrees with the expected-frequency formula
440 * 2 ^ ((m - 69) / 12) of test_mtof_accuracy. -/
theorem midi_freq_round_trip (n : ℝ) :
    freq_to_midi (midi_to_freq n) = n ∧ midi_to_freq 69 = 440 ∧
      midi_to_freq n = 440 * (2 : ℝ) ^ ((n - 69) / 12) := by
  refine ⟨?_, ?_, rfl⟩
  · unfold freq_to_midi midi_to_freq
    rw [show (440 : ℝ) * (2 : ℝ) ^ ((n - 69) / 12) / 440 =
        (2 : ℝ) ^ ((n - 69) / 12) by ring,
      Real.logb_rpow (by norm_num) (by norm_num)]
    ring
  · unfold midi_to_freq
    norm_num

/-! ## ADSR reference attack curve

Embeds the ideal attack curve of test_envelopes.py
(test_envelope_curves and test_exponential_accuracy): for a configured
attack time T the reference level is 1 - exp(-t / tau) with time constant
tau = T / 4.6. -/
noncomputable def adsrAttackCurve (T t : ℝ) : ℝ :=
  1 - Real.exp (-(t / (T / 4.6)))

/-- Numeric bound: exp 23 is below 10 ^ 10. -/
lemma exp_23_lt : Real.exp 23 < 10 ^ 10 := by
  have h := Real.exp_one_lt_d9
  have hcast : ((23 : ℕ) : ℝ) * 1 = 23 := by norm_num
  calc Real.exp 23 = Real.exp 1 ^ (23 : ℕ) := by
        rw [← Real.exp_nat_mul, hcast]
    _ < 2.7182818286 ^ (23 : ℕ) := by gcongr
    _ < 10 ^ 10 := by norm_num

/-- Numeric bound: exp 23 is above 99.02 ^ 5. -/
lemma exp_23_gt : (99.02 : ℝ) ^ (5 : ℕ) < Real.exp 23 := by
  have h := Real.exp_one_gt_d9
  have hcast : ((23 : ℕ) : ℝ) * 1 = 23 := by norm_num
  calc (99.02 : ℝ) ^ (5 : ℕ) < 2.7182818283 ^ (23 : ℕ) := by norm_num
    _ < Real.exp 1 ^ (23 : ℕ) := by gcongr
    _ = Real.exp 23 := by rw [← Real.exp_nat_mul, hcast]

/-- exp 4.6 raised to the fifth power is exp 23. -/
lemma exp_46_pow : Real.exp 4.6 ^ (5 : ℕ) = Real.exp 23 := by
  rw [← Real.exp_nat_mul]
  norm_num

/-- exp 4.6 lies strictly between 99.02 and 100. -/
lemma exp_46_bounds : (99.02 : ℝ) < Real.exp 4.6 ∧ Real.exp 4.6 < 100 := by
  constructor
  · by_contra hc
    push_neg at hc
    have hle : Real.exp 4.6 ^ (5 : ℕ) ≤ (99.02 : ℝ) ^ (5 : ℕ) :=
      pow_le_pow_left (Real.exp_pos 4.6).le hc 5
    rw [exp_46_pow] at hle
    exact absurd exp_23_gt (not_lt.mpr hle)
  · by_contra hc
    push_neg at hc
    have hle : (100 : ℝ) ^ (5 : ℕ) ≤ Real.exp 4.6 ^ (5 : ℕ) :=
      pow_le_pow_left (by norm_num) hc 5
    rw [exp_46_pow] at hle
    have : (10 : ℝ) ^ 10 ≤ Real.exp 23 := by
      calc (10 : ℝ) ^ 10 = (100 : ℝ) ^ (5 : ℕ) := by norm_num
        _ ≤ Real.exp 23 := hle
    exact absurd exp_23_lt (not_lt.mpr this)

/-- C6 counterexample: at the concrete configured attack time T = 1 the
reference attack curve reaches only 1 - exp(-4.6), which is strictly below
0.99 at t = T. -/
theorem adsr_attack_below_099 : adsrAttackCurve 1 1 < 0.99 := by
  have hp : (0 : ℝ) < Real.exp 4.6 := Real.exp_pos _
  have hinv : Real.exp 4.6 * (Real.exp 4.6)⁻¹ = 1 := mul_inv_cancel₀ hp.ne'
  have hlt := exp_46_bounds.2
  have hpos : (0 : ℝ) < (Real.exp 4.6)⁻¹ := inv_pos.mpr hp
  unfold adsrAttackCurve
  rw [show -((1 : ℝ) / (1 / 4.6)) = -4.6 by norm_num, Real.exp_neg]
  nlinarith

/-- C6 (amended): for every configured attack time T > 0, the reference
attack curve at t = T equals 1 - exp(-4.6), which is at least 0.9899 but
strictly below 0.99: the envelope reaches about 99 percent of target,
just short of the exact 0.99 level. -/
theorem adsr_attack_level (T : ℝ) (hT : 0 < T) :
    adsrAttackCurve T T = 1 - Real.exp (-4.6) ∧
      0.9899 ≤ adsrAttackCurve T T ∧ adsrAttackCurve T T < 0.99 := by
  have hp : (0 : ℝ) < Real.exp 4.6 := Real.exp_pos _
  have hinv : Real.exp 4.6 * (Real.exp 4.6)⁻¹ = 1 := mul_inv_cancel₀ hp.ne'
  have hpos : (0 : ℝ) < (Real.exp 4.6)⁻¹ := inv_pos.mpr hp
  have hgt := exp_46_bounds.1
  have hlt := exp_46_bounds.2
  have harg : T / (T / 4.6) = 4.6 := by
    field_simp
  have hcurve : adsrAttackCurve T T = 1 - Real.exp (-4.6) := by
    unfold adsrAttackCurve
    rw [harg]
  refine ⟨hcurve, ?_, ?_⟩
  · rw [hcurve, Real.exp_neg]
    nlinarith
  · rw [hcurve, Real.exp_neg]
    nlinarith

/-- C6 witness at T = 1. -/
theorem adsr_attack_level_witness :
    (0 : ℝ) < 1 ∧ adsrAttackCurve 1 1 = 1 - Real.exp (-4.6) ∧
      0.9899 ≤ adsrAttackCurve 1 1 :=
  ⟨by norm_num, (adsr_attack_level 1 (by norm_num)).1,
    (adsr_attack_level 1 (by norm_num)).2.1⟩

/-! ## Gate closing speed

Modelled from the spec: the DYNAMICS_GATE opcode itself is implemented in
the engine, which is not under src/; only its test
(test_gate_attenuation_speed in test_dynamics.py) is.  Following the spec
and the timing commentary of that test, the envelope follower that drives
the gate has time constant release / 10, so after the input drops the gate
closes at the moment the envelope has decayed by the loud-to-threshold
factor of 20 (at time (release / 10) * log 20); from then on the applied
attenuation in dB approaches the configured range with the internal fast
5 ms gain-transition coefficient, independent of the configured release. -/
noncomputable def gateCloseTime (release : ℝ) : ℝ :=
  release / 10 * Real.log 20

/-- Modelled from the spec: attenuation in dB applied by the gate at time
t after the input drops below threshold, for a configured release and
attenuation range in dB. -/
noncomputable def gateAttenuation (release rangeDb t : ℝ) : ℝ :=
  if t ≤ gateCloseTime release then 0
  else rangeDb * (1 - Real.exp (-((t - gateCloseTime release) / (5 / 1000))))

/-- C8: for any configured release up to 500 ms, the attenuation applied
by the gate 200 ms after the input drops below threshold is within 10 dB
of the configured 60 dB range: the close speed is governed by the fast
5 ms coefficient, not by the release time. -/
theorem gate_close_fast (release : ℝ) (h0 : 0 < release)
    (h1 : release ≤ 1 / 2) :
    60 - gateAttenuation release 60 (1 / 5) ≤ 10 := by
  have hlog0 : 0 < Real.log 20 := Real.log_pos (by norm_num)
  have hlog3 : Real.log 20 < 3 := by
    rw [Real.log_lt_iff_lt_exp (by norm_num)]
    have h := Real.exp_one_gt_d9
    have hcast : ((3 : ℕ) : ℝ) * 1 = 3 := by norm_num
    calc (20 : ℝ) < 2.7182818283 ^ (3 : ℕ) := by norm_num
      _ < Real.exp 1 ^ (3 : ℕ) := by gcongr
      _ = Real.exp 3 := by rw [← Real.exp_nat_mul, hcast]
  have hct : gateCloseTime release < 3 / 20 := by
    unfold gateCloseTime
    have hb : release / 10 * Real.log 20 ≤ 1 / 2 / 10 * Real.log 20 := by
      apply mul_le_mul_of_nonneg_right _ hlog0.le
      linarith
    nlinarith
  have hbr : ¬ ((1 : ℝ) / 5 ≤ gateCloseTime release) := by
    push_neg
    linarith
  unfold gateAttenuation
  rw [if_neg hbr]
  have hs10 : (10 : ℝ) ≤ (1 / 5 - gateCloseTime release) / (5 / 1000) := by
    rw [le_div_iff (by norm_num)]
    linarith
  have hexp : Real.exp (-((1 / 5 - gateCloseTime release) / (5 / 1000))) ≤
      1 / 11 := by
    have ha : Real.exp (-((1 / 5 - gateCloseTime release) / (5 / 1000))) ≤
        Real.exp (-10) := Real.exp_le_exp.mpr (by linarith)
    have hb : (11 : ℝ) ≤ Real.exp 10 := by
      have := Real.add_one_le_exp (10 : ℝ)
      linarith
    have hp : (0 : ℝ) < Real.exp 10 := Real.exp_pos _
    have hinv : Real.exp 10 * (Real.exp 10)⁻¹ = 1 := mul_inv_cancel₀ hp.ne'
    have hc : Real.exp (-10) ≤ 1 / 11 := by
      rw [Real.exp_neg]
      have hpos : (0 : ℝ) < (Real.exp 10)⁻¹ := inv_pos.mpr hp
      nlinarith
    linarith
  nlinarith

/-- C8 witness at release = 500 ms. -/
theorem gate_close_fast_witness :
    (0 : ℝ) < 1 / 2 ∧ (1 / 2 : ℝ) ≤ 1 / 2 ∧
      60 - gateAttenuation (1 / 2) 60 (1 / 5) ≤ 10 :=
  ⟨by norm_num, le_rfl, gate_close_fast (1 / 2) (by norm_num) le_rfl⟩

end Cedar
